import Mathlib

/-!
Shallow embedding of `awkward-cpp/awkward/cpp/array/awk_util.h`: the byte-order
normalization core (swap primitives, native-order detection, and the in-place
`makeNative` normalizer).  Machine integers are modelled as `Nat` bit patterns,
reduced `% 2 ^ w` exactly where the C code truncates or wraps.
-/

namespace AwkUtil

/-- Sign-extend a `w`-bit two's-complement pattern to a `W`-bit pattern
(the bit-pattern effect of C integer promotion / widening of a signed value). -/
def sext (w W x : Nat) : Nat :=
  if x % 2 ^ w < 2 ^ (w - 1) then x % 2 ^ w else x % 2 ^ w + (2 ^ W - 2 ^ w)

/-- Arithmetic shift right by `k` on a `W`-bit two's-complement pattern
(the bit-pattern effect of C `>>` on a signed value, sign-fill semantics). -/
def sar (W k x : Nat) : Nat :=
  if x % 2 ^ W < 2 ^ (W - 1) then (x % 2 ^ W) >>> k
  else ((x % 2 ^ W) + 2 ^ W * (2 ^ k - 1)) >>> k

/-- `std::uint16_t swap_uint16(std::uint16_t val) { return (val << 8) | (val >> 8); }`
The operands are promoted to `int`; neither intermediate can exceed `2 ^ 24`,
so only the final conversion back to `uint16_t` truncates. -/
def swap_uint16 (val : Nat) : Nat :=
  (((val % 2 ^ 16) <<< 8) ||| ((val % 2 ^ 16) >>> 8)) % 2 ^ 16

/-- `std::int16_t swap_int16(std::int16_t val) { return (val << 8) | ((val >> 8) & 0xFF); }`
`val` (a 16-bit pattern) is promoted to a 32-bit `int` by sign extension; `>>` on
the signed value is an arithmetic shift; the result is truncated to 16 bits. -/
def swap_int16 (val : Nat) : Nat :=
  ((sext 16 32 val <<< 8) % 2 ^ 32 ||| (sar 32 8 (sext 16 32 val) &&& 0xFF)) % 2 ^ 16

/-- `std::uint32_t swap_uint32(std::uint32_t val)`:
`val = ((val << 8) & 0xFF00FF00) | ((val >> 8) & 0xFF00FF);
 return (val << 16) | (val >> 16);` -/
def swap_uint32 (val : Nat) : Nat :=
  let v0 := val % 2 ^ 32
  let v1 := ((v0 <<< 8) % 2 ^ 32 &&& 0xFF00FF00) ||| ((v0 >>> 8) &&& 0x00FF00FF)
  ((v1 <<< 16) % 2 ^ 32 ||| (v1 >>> 16)) % 2 ^ 32

/-- `std::int32_t swap_int32(std::int32_t val)`:
`val = ((val << 8) & 0xFF00FF00) | ((val >> 8) & 0xFF00FF);
 return (val << 16) | ((val >> 16) & 0xFFFF);`
with `>>` arithmetic on the signed 32-bit pattern. -/
def swap_int32 (val : Nat) : Nat :=
  let v0 := val % 2 ^ 32
  let v1 := ((v0 <<< 8) % 2 ^ 32 &&& 0xFF00FF00) ||| (sar 32 8 v0 &&& 0x00FF00FF)
  ((v1 <<< 16) % 2 ^ 32 ||| (sar 32 16 v1 &&& 0xFFFF)) % 2 ^ 32

/-- `std::uint64_t swap_uint64(std::uint64_t val)`:
`val = ((val << 8) & 0xFF00FF00FF00FF00ULL) | ((val >> 8) & 0x00FF00FF00FF00FFULL);
 val = ((val << 16) & 0xFFFF0000FFFF0000ULL) | ((val >> 16) & 0x0000FFFF0000FFFFULL);
 return (val << 32) | (val >> 32);` -/
def swap_uint64 (val : Nat) : Nat :=
  let v0 := val % 2 ^ 64
  let v1 := ((v0 <<< 8) % 2 ^ 64 &&& 0xFF00FF00FF00FF00) |||
            ((v0 >>> 8) &&& 0x00FF00FF00FF00FF)
  let v2 := ((v1 <<< 16) % 2 ^ 64 &&& 0xFFFF0000FFFF0000) |||
            ((v1 >>> 16) &&& 0x0000FFFF0000FFFF)
  ((v2 <<< 32) % 2 ^ 64 ||| (v2 >>> 32)) % 2 ^ 64

/-- `std::int64_t swap_int64(std::int64_t val)`:
`val = ((val << 8) & 0xFF00FF00FF00FF00ULL) | ((val >> 8) & 0x00FF00FF00FF00FFULL);
 val = ((val << 16) & 0xFFFF0000FFFF0000ULL) | ((val >> 16) & 0x0000FFFF0000FFFFULL);
 return (val << 32) | ((val >> 32) & 0xFFFFFFFFULL);`
with `>>` arithmetic on the signed 64-bit pattern. -/
def swap_int64 (val : Nat) : Nat :=
  let v0 := val % 2 ^ 64
  let v1 := ((v0 <<< 8) % 2 ^ 64 &&& 0xFF00FF00FF00FF00) |||
            (sar 64 8 v0 &&& 0x00FF00FF00FF00FF)
  let v2 := ((v1 <<< 16) % 2 ^ 64 &&& 0xFFFF0000FFFF0000) |||
            (sar 64 16 v1 &&& 0x0000FFFF0000FFFF)
  ((v2 <<< 32) % 2 ^ 64 ||| (sar 64 32 v2 &&& 0xFFFFFFFF)) % 2 ^ 64

/-- The little-endian byte list of a value: byte `j` is `x / 2 ^ (8 j) % 256`. -/
def bytesOf (w x : Nat) : List Nat :=
  (List.range w).map fun j => x / 2 ^ (8 * j) % 2 ^ 8

/-- Full byte reversal of a 16-bit value, written directly in `div`/`mod`
arithmetic (specification-side vocabulary for the proofs). -/
def byterev2 (x : Nat) : Nat :=
  x % 2 ^ 8 * 2 ^ 8 + x / 2 ^ 8 % 2 ^ 8

/-- Full byte reversal of a 32-bit value. -/
def byterev4 (x : Nat) : Nat :=
  x % 2 ^ 8 * 2 ^ 24 + x / 2 ^ 8 % 2 ^ 8 * 2 ^ 16 +
  x / 2 ^ 16 % 2 ^ 8 * 2 ^ 8 + x / 2 ^ 24 % 2 ^ 8

/-- Full byte reversal of a 64-bit value. -/
def byterev8 (x : Nat) : Nat :=
  x % 2 ^ 8 * 2 ^ 56 + x / 2 ^ 8 % 2 ^ 8 * 2 ^ 48 +
  x / 2 ^ 16 % 2 ^ 8 * 2 ^ 40 + x / 2 ^ 24 % 2 ^ 8 * 2 ^ 32 +
  x / 2 ^ 32 % 2 ^ 8 * 2 ^ 24 + x / 2 ^ 40 % 2 ^ 8 * 2 ^ 16 +
  x / 2 ^ 48 % 2 ^ 8 * 2 ^ 8 + x / 2 ^ 56 % 2 ^ 8

/-- Host byte order.  In the C code it is observable only through the memory layout of
multi-byte values, which is how `isNative` probes it at runtime. -/
inductive Endian where
  | little : Endian
  | big : Endian
deriving DecidableEq

/-- The `w` bytes of value `v` as laid out in host memory, lowest address first:
on a little-endian host byte `j` is `v / 2 ^ (8 j) mod 256`, on a big-endian host the
order is reversed. -/
def layoutBytes (host : Endian) (w v : Nat) : List Nat :=
  (List.range w).map fun j =>
    match host with
    | Endian.little => v / 2 ^ (8 * j) % 2 ^ 8
    | Endian.big => v / 2 ^ (8 * (w - 1 - j)) % 2 ^ 8

/-- `bool isNative(py::array input)`:
`char ch = input.request().format.at(0);
 union { uint32_t i; char c[4]; } bint = { 0x01020304 };
 return ((bint.c[0] == 1 && ch != '<') || (bint.c[0] != 1 && ch != '>'));`
`bint.c[0]` is the lowest-addressed byte of `0x01020304` in host memory.  `format.at(0)`
throws on an empty format string; every buffer considered here has a non-empty format,
modelled with `headD`. -/
def isNative (host : Endian) (format : List Char) : Bool :=
  let ch := format.headD ' '
  let c0 := (layoutBytes host 4 0x01020304).headD 0
  (c0 == 1 && ch != '<') || (c0 != 1 && ch != '>')

/-- The parts of pybind11's `py::buffer_info` that the `makeNative` overloads read:
the format string, `shape[0]`, `itemsize`, `size` (total element count), and the
underlying storage, modelled as a total map from byte offset (relative to the data
pointer `ptr`) to the byte stored there. -/
structure BufferInfo where
  format : List Char
  shape0 : Nat
  itemsize : Nat
  size : Nat
  mem : Nat → Nat

/-- Dereference a `w`-byte typed pointer at byte offset `addr`: assemble the `w` bytes
in host order into a value. -/
def readElem (host : Endian) (w : Nat) (mem : Nat → Nat) (addr : Nat) : Nat :=
  (List.range w).foldl
    (fun acc j =>
      match host with
      | Endian.little => acc + mem (addr + j) % 2 ^ 8 * 2 ^ (8 * j)
      | Endian.big => acc + mem (addr + j) % 2 ^ 8 * 2 ^ (8 * (w - 1 - j))) 0

/-- Store value `v` through a `w`-byte typed pointer at byte offset `addr`: the `w`
bytes at `addr, …, addr+w-1` become the host-order layout of `v`; all other bytes keep
their old value. -/
def writeElem (host : Endian) (w : Nat) (mem : Nat → Nat) (addr v : Nat) : Nat → Nat :=
  fun a =>
    if addr ≤ a ∧ a < addr + w then (layoutBytes host w v).getD (a - addr) 0
    else mem a

/-- The loop shared by all swapping `makeNative` overloads:
`for (ssize_t i = 0; i < size; i++) { array_ptr[i * N] = swapFn(array_ptr[i * N]); }`
where `array_ptr` is a `w`-byte typed pointer, so element index `i * N` is byte offset
`i * N * w`, and `N = shape[0] / itemsize` at every call site. -/
def makeNativeLoop (host : Endian) (w : Nat) (swapFn : Nat → Nat) (N size : Nat)
    (mem : Nat → Nat) : Nat → Nat :=
  (List.range size).foldl
    (fun m i => writeElem host w m (i * N * w) (swapFn (readElem host w m (i * N * w))))
    mem

/-- `void makeNative(py::array_t<std::uint8_t> input) { return; }` -/
def makeNative_uint8 (_host : Endian) (b : BufferInfo) : BufferInfo := b

/-- `void makeNative(py::array_t<std::int8_t> input) { return; }` -/
def makeNative_int8 (_host : Endian) (b : BufferInfo) : BufferInfo := b

/-- `void makeNative(py::array_t<std::uint16_t> input)`:
`if (isNative(input)) return;` then `int N = shape[0] / itemsize;` and
`for (i = 0; i < size; i++) ptr[i*N] = swap_uint16(ptr[i*N]);` in place. -/
def makeNative_uint16 (host : Endian) (b : BufferInfo) : BufferInfo :=
  if isNative host b.format then b
  else
    { b with
      mem := makeNativeLoop host 2 swap_uint16 (b.shape0 / b.itemsize) b.size b.mem }

/-- `void makeNative(py::array_t<std::int16_t> input)`, same loop with `swap_int16`. -/
def makeNative_int16 (host : Endian) (b : BufferInfo) : BufferInfo :=
  if isNative host b.format then b
  else
    { b with
      mem := makeNativeLoop host 2 swap_int16 (b.shape0 / b.itemsize) b.size b.mem }

/-- `void makeNative(py::array_t<std::uint32_t> input)`, same loop with `swap_uint32`
over 4-byte elements. -/
def makeNative_uint32 (host : Endian) (b : BufferInfo) : BufferInfo :=
  if isNative host b.format then b
  else
    { b with
      mem := makeNativeLoop host 4 swap_uint32 (b.shape0 / b.itemsize) b.size b.mem }

/-- `void makeNative(py::array_t<std::int32_t> input)`, same loop with `swap_int32`. -/
def makeNative_int32 (host : Endian) (b : BufferInfo) : BufferInfo :=
  if isNative host b.format then b
  else
    { b with
      mem := makeNativeLoop host 4 swap_int32 (b.shape0 / b.itemsize) b.size b.mem }

/-- `void makeNative(py::array_t<std::uint64_t> input)`, same loop with `swap_uint64`
over 8-byte elements. -/
def makeNative_uint64 (host : Endian) (b : BufferInfo) : BufferInfo :=
  if isNative host b.format then b
  else
    { b with
      mem := makeNativeLoop host 8 swap_uint64 (b.shape0 / b.itemsize) b.size b.mem }

/-- `void makeNative(py::array_t<std::int64_t> input)`, same loop with `swap_int64`. -/
def makeNative_int64 (host : Endian) (b : BufferInfo) : BufferInfo :=
  if isNative host b.format then b
  else
    { b with
      mem := makeNativeLoop host 8 swap_int64 (b.shape0 / b.itemsize) b.size b.mem }

/-- The §8 example buffer: three `uint16` elements tagged little, stored bytes
`[0x01, 0x02, 0x03, 0x04, 0x05, 0x06]` (bytes beyond the region read as 0). -/
def bufC8 : BufferInfo :=
  { format := ['<'], shape0 := 3, itemsize := 2, size := 3,
    mem := fun a => [0x01, 0x02, 0x03, 0x04, 0x05, 0x06].getD a 0 }

/-- Three `uint16` elements tagged big, stored bytes `[1, 2, 3, 4, 5, 6]`, used on a
little-endian host (so the tag claims non-native). -/
def bufC9 : BufferInfo :=
  { format := ['>'], shape0 := 3, itemsize := 2, size := 3,
    mem := fun a => [1, 2, 3, 4, 5, 6].getD a 0 }

/-- Four contiguous `uint16` elements tagged big, stored bytes `[1, 2, 3, 4, 5, 6, 7, 8]`
(bytes beyond the 8-byte data region read as 0). -/
def bufC1 : BufferInfo :=
  { format := ['>'], shape0 := 4, itemsize := 2, size := 4,
    mem := fun a => if a < 8 then a + 1 else 0 }

/-- Four contiguous `uint16` elements tagged big; byte at offset `a` of the surrounding
allocation is `(a + 1) % 256`, so bytes outside the 8-byte data region are nonzero. -/
def bufC10 : BufferInfo :=
  { format := ['>'], shape0 := 4, itemsize := 2, size := 4,
    mem := fun a => (a + 1) % 256 }

/-- A buffer tagged little with arbitrary concrete bytes, native on a little-endian
host. -/
def bufNative : BufferInfo :=
  { format := ['<'], shape0 := 3, itemsize := 2, size := 3, mem := fun a => a % 256 }

end AwkUtil

namespace AwkUtil

theorem or_eq_add {a b : Nat} (h : a &&& b = 0) : a ||| b = a + b := by
  induction a using Nat.strongRecOn generalizing b with
  | _ a ih =>
    rcases Nat.eq_zero_or_pos a with ha | ha
    · simp [ha]
    · have hdiv : (a ||| b) / 2 = a / 2 ||| b / 2 := Nat.or_div_two
      have hand : a / 2 &&& b / 2 = 0 := by
        rw [← Nat.and_div_two, h]
      have hih := ih (a / 2) (Nat.div_lt_self ha (by norm_num)) hand
      have hmod2 : ¬ (a % 2 = 1 ∧ b % 2 = 1) := by
        intro hc
        have := Nat.and_mod_two_eq_one.mpr hc
        rw [h] at this
        simp at this
      have hor2 : (a ||| b) % 2 = 1 ↔ a % 2 = 1 ∨ b % 2 = 1 := Nat.or_mod_two_eq_one
      have h1 := Nat.div_add_mod (a ||| b) 2
      have h2 := Nat.div_add_mod a 2
      have h3 := Nat.div_add_mod b 2
      have ha2 := Nat.mod_two_eq_zero_or_one a
      have hb2 := Nat.mod_two_eq_zero_or_one b
      have hab2 := Nat.mod_two_eq_zero_or_one (a ||| b)
      rw [hdiv, hih] at h1
      rcases ha2 with ha2 | ha2 <;> rcases hb2 with hb2 | hb2
      · have : ¬ ((a ||| b) % 2 = 1) := by
          rw [hor2]; omega
        omega
      · have : (a ||| b) % 2 = 1 := hor2.mpr (Or.inr hb2)
        omega
      · have : (a ||| b) % 2 = 1 := hor2.mpr (Or.inl ha2)
        omega
      · exact absurd ⟨ha2, hb2⟩ hmod2

theorem and_masked_disjoint (y z M1 M2 : Nat) (h : M1 &&& M2 = 0) :
    (y &&& M1) &&& (z &&& M2) = 0 := by
  apply Nat.eq_of_testBit_eq
  intro i
  have hm := congrArg (fun t => Nat.testBit t i) h
  simp only [Nat.testBit_and, Nat.zero_testBit] at hm ⊢
  cases h1 : Nat.testBit M1 i <;> cases h2 : Nat.testBit M2 i <;>
    simp_all

theorem and_block (x j k : Nat) :
    x &&& ((2 ^ j - 1) <<< k) = ((x >>> k) % 2 ^ j) <<< k := by
  apply Nat.eq_of_testBit_eq
  intro i
  simp only [Nat.testBit_and, Nat.testBit_shiftLeft, Nat.testBit_shiftRight,
    Nat.testBit_mod_two_pow, Nat.testBit_two_pow_sub_one]
  by_cases hk : k ≤ i
  · simp only [decide_eq_true hk, Bool.true_and]
    rw [Nat.add_sub_cancel' hk]
    cases hij : decide (i - k < j) <;> simp [hij, Bool.and_comm]
  · simp [hk]

theorem shiftLeft_mul (x k : Nat) : x <<< k = x * 2 ^ k := by
  rw [Nat.shiftLeft_eq]

theorem shiftRight_div (x k : Nat) : x >>> k = x / 2 ^ k := by
  rw [Nat.shiftRight_eq_div_pow]

theorem mul_or_eq_add {b k : Nat} (a : Nat) (hb : b < 2 ^ k) :
    a * 2 ^ k ||| b = a * 2 ^ k + b := by
  rw [Nat.mul_comm a, ← Nat.mul_add_lt_is_or hb, Nat.mul_comm]

theorem shl_or_eq_add {b k : Nat} (a : Nat) (hb : b < 2 ^ k) :
    a <<< k ||| b = a * 2 ^ k + b := by
  rw [shiftLeft_mul]
  exact mul_or_eq_add a hb

theorem mask_FF (x : Nat) : x &&& 0xFF = x % 2 ^ 8 := by
  have hm : (0xFF : Nat) = 2 ^ 8 - 1 := by decide
  rw [hm, Nat.and_pow_two_sub_one_eq_mod]

theorem mask_FFFF (x : Nat) : x &&& 0xFFFF = x % 2 ^ 16 := by
  have hm : (0xFFFF : Nat) = 2 ^ 16 - 1 := by decide
  rw [hm, Nat.and_pow_two_sub_one_eq_mod]

theorem mask_FFFFFFFF (x : Nat) : x &&& 0xFFFFFFFF = x % 2 ^ 32 := by
  have hm : (0xFFFFFFFF : Nat) = 2 ^ 32 - 1 := by decide
  rw [hm, Nat.and_pow_two_sub_one_eq_mod]

theorem mask_00FF00FF (x : Nat) :
    x &&& 0x00FF00FF = x / 2 ^ 16 % 2 ^ 8 * 2 ^ 16 + x % 2 ^ 8 := by
  have hm : (0x00FF00FF : Nat) = (2 ^ 8 - 1) <<< 16 ||| (2 ^ 8 - 1) := by decide
  rw [hm, Nat.and_or_distrib_left, and_block, Nat.and_pow_two_sub_one_eq_mod,
    Nat.shiftLeft_eq]
  rw [mul_or_eq_add (x >>> 16 % 2 ^ 8) (show x % 2 ^ 8 < 2 ^ 16 by omega)]
  rw [shiftRight_div]

theorem mask_FF00FF00 (x : Nat) :
    x &&& 0xFF00FF00 = x / 2 ^ 24 % 2 ^ 8 * 2 ^ 24 + x / 2 ^ 8 % 2 ^ 8 * 2 ^ 8 := by
  have hm : (0xFF00FF00 : Nat) = (2 ^ 8 - 1) <<< 24 ||| (2 ^ 8 - 1) <<< 8 := by decide
  rw [hm, Nat.and_or_distrib_left, and_block, and_block]
  simp only [shiftLeft_mul, shiftRight_div]
  rw [mul_or_eq_add (x / 2 ^ 24 % 2 ^ 8)
    (show x / 2 ^ 8 % 2 ^ 8 * 2 ^ 8 < 2 ^ 24 by omega)]

theorem mask_00FF00FF00FF00FF (x : Nat) :
    x &&& 0x00FF00FF00FF00FF =
      x / 2 ^ 48 % 2 ^ 8 * 2 ^ 48 + x / 2 ^ 32 % 2 ^ 8 * 2 ^ 32 +
        x / 2 ^ 16 % 2 ^ 8 * 2 ^ 16 + x % 2 ^ 8 := by
  have hm : (0x00FF00FF00FF00FF : Nat) =
      (2 ^ 8 - 1) <<< 48 ||| ((2 ^ 8 - 1) <<< 32 ||| ((2 ^ 8 - 1) <<< 16 ||| (2 ^ 8 - 1))) := by
    decide
  rw [hm, Nat.and_or_distrib_left, Nat.and_or_distrib_left, Nat.and_or_distrib_left,
    and_block, and_block, and_block, Nat.and_pow_two_sub_one_eq_mod]
  simp only [shiftLeft_mul, shiftRight_div]
  rw [mul_or_eq_add (x / 2 ^ 16 % 2 ^ 8) (show x % 2 ^ 8 < 2 ^ 16 by omega)]
  rw [mul_or_eq_add (x / 2 ^ 32 % 2 ^ 8)
    (show x / 2 ^ 16 % 2 ^ 8 * 2 ^ 16 + x % 2 ^ 8 < 2 ^ 32 by omega)]
  rw [mul_or_eq_add (x / 2 ^ 48 % 2 ^ 8)
    (show x / 2 ^ 32 % 2 ^ 8 * 2 ^ 32 + (x / 2 ^ 16 % 2 ^ 8 * 2 ^ 16 + x % 2 ^ 8) < 2 ^ 48
      by omega)]
  omega

theorem mask_FF00FF00FF00FF00 (x : Nat) :
    x &&& 0xFF00FF00FF00FF00 =
      x / 2 ^ 56 % 2 ^ 8 * 2 ^ 56 + x / 2 ^ 40 % 2 ^ 8 * 2 ^ 40 +
        x / 2 ^ 24 % 2 ^ 8 * 2 ^ 24 + x / 2 ^ 8 % 2 ^ 8 * 2 ^ 8 := by
  have hm : (0xFF00FF00FF00FF00 : Nat) =
      (2 ^ 8 - 1) <<< 56 ||| ((2 ^ 8 - 1) <<< 40 ||| ((2 ^ 8 - 1) <<< 24 ||| (2 ^ 8 - 1) <<< 8)) := by
    decide
  rw [hm, Nat.and_or_distrib_left, Nat.and_or_distrib_left, Nat.and_or_distrib_left,
    and_block, and_block, and_block, and_block]
  simp only [shiftLeft_mul, shiftRight_div]
  rw [mul_or_eq_add (x / 2 ^ 24 % 2 ^ 8)
    (show x / 2 ^ 8 % 2 ^ 8 * 2 ^ 8 < 2 ^ 24 by omega)]
  rw [mul_or_eq_add (x / 2 ^ 40 % 2 ^ 8)
    (show x / 2 ^ 24 % 2 ^ 8 * 2 ^ 24 + x / 2 ^ 8 % 2 ^ 8 * 2 ^ 8 < 2 ^ 40 by omega)]
  rw [mul_or_eq_add (x / 2 ^ 56 % 2 ^ 8)
    (show x / 2 ^ 40 % 2 ^ 8 * 2 ^ 40 +
        (x / 2 ^ 24 % 2 ^ 8 * 2 ^ 24 + x / 2 ^ 8 % 2 ^ 8 * 2 ^ 8) < 2 ^ 56 by omega)]
  omega

theorem mask_0000FFFF0000FFFF (x : Nat) :
    x &&& 0x0000FFFF0000FFFF = x / 2 ^ 32 % 2 ^ 16 * 2 ^ 32 + x % 2 ^ 16 := by
  have hm : (0x0000FFFF0000FFFF : Nat) = (2 ^ 16 - 1) <<< 32 ||| (2 ^ 16 - 1) := by decide
  rw [hm, Nat.and_or_distrib_left, and_block, Nat.and_pow_two_sub_one_eq_mod,
    Nat.shiftLeft_eq]
  rw [mul_or_eq_add (x >>> 32 % 2 ^ 16) (show x % 2 ^ 16 < 2 ^ 32 by omega)]
  rw [shiftRight_div]

theorem mask_FFFF0000FFFF0000 (x : Nat) :
    x &&& 0xFFFF0000FFFF0000 =
      x / 2 ^ 48 % 2 ^ 16 * 2 ^ 48 + x / 2 ^ 16 % 2 ^ 16 * 2 ^ 16 := by
  have hm : (0xFFFF0000FFFF0000 : Nat) = (2 ^ 16 - 1) <<< 48 ||| (2 ^ 16 - 1) <<< 16 := by
    decide
  rw [hm, Nat.and_or_distrib_left, and_block, and_block]
  simp only [shiftLeft_mul, shiftRight_div]
  rw [mul_or_eq_add (x / 2 ^ 48 % 2 ^ 16)
    (show x / 2 ^ 16 % 2 ^ 16 * 2 ^ 16 < 2 ^ 48 by omega)]

theorem mul_mod_split8 (p : Nat) : p * 2 ^ 8 % 2 ^ 16 = p % 2 ^ 8 * 2 ^ 8 := by
  rw [show (2 : Nat) ^ 16 = 2 ^ 8 * 2 ^ 8 by norm_num, Nat.mul_mod_mul_right]

theorem mul_mod_split16 (p : Nat) : p * 2 ^ 16 % 2 ^ 32 = p % 2 ^ 16 * 2 ^ 16 := by
  rw [show (2 : Nat) ^ 32 = 2 ^ 16 * 2 ^ 16 by norm_num, Nat.mul_mod_mul_right]

theorem mul_mod_split32 (p : Nat) : p * 2 ^ 32 % 2 ^ 64 = p % 2 ^ 32 * 2 ^ 32 := by
  rw [show (2 : Nat) ^ 64 = 2 ^ 32 * 2 ^ 32 by norm_num, Nat.mul_mod_mul_right]

theorem mul_add_mod16 (p : Nat) {q : Nat} (hq : q < 2 ^ 8) :
    (p * 2 ^ 8 + q) % 2 ^ 16 = p % 2 ^ 8 * 2 ^ 8 + q := by
  rw [Nat.add_mod, mul_mod_split8, Nat.mod_eq_of_lt (show q < 2 ^ 16 by omega),
    Nat.mod_eq_of_lt (show p % 2 ^ 8 * 2 ^ 8 + q < 2 ^ 16 by omega)]

theorem rotate16 {e : Nat} (he : e < 2 ^ 32) :
    ((e <<< 16) % 2 ^ 32 ||| e >>> 16) % 2 ^ 32 = e % 2 ^ 16 * 2 ^ 16 + e / 2 ^ 16 := by
  rw [shiftLeft_mul, shiftRight_div, mul_mod_split16,
    mul_or_eq_add _ (show e / 2 ^ 16 < 2 ^ 16 by omega)]
  exact Nat.mod_eq_of_lt (by omega)

theorem rotate32 {e : Nat} (he : e < 2 ^ 64) :
    ((e <<< 32) % 2 ^ 64 ||| e >>> 32) % 2 ^ 64 = e % 2 ^ 32 * 2 ^ 32 + e / 2 ^ 32 := by
  rw [shiftLeft_mul, shiftRight_div, mul_mod_split32,
    mul_or_eq_add _ (show e / 2 ^ 32 < 2 ^ 32 by omega)]
  exact Nat.mod_eq_of_lt (by omega)

theorem swap_uint16_eq (x : Nat) : swap_uint16 x = byterev2 (x % 2 ^ 16) := by
  unfold swap_uint16 byterev2
  rw [shl_or_eq_add (x % 2 ^ 16)
    (show (x % 2 ^ 16) >>> 8 < 2 ^ 8 by rw [shiftRight_div]; omega)]
  rw [shiftRight_div, mul_add_mod16 _ (show x % 2 ^ 16 / 2 ^ 8 < 2 ^ 8 by omega)]
  omega

theorem swap_uint32_eq (x : Nat) : swap_uint32 x = byterev4 (x % 2 ^ 32) := by
  simp only [swap_uint32]
  generalize hgen : x % 2 ^ 32 = v
  have hx : v < 2 ^ 32 := hgen ▸ Nat.mod_lt _ (by norm_num)
  clear hgen
  obtain ⟨b0, b1, b2, b3, hd0, hd1, hd2, hd3, hb0, hb1, hb2, hb3, hv⟩ :
      ∃ b0 b1 b2 b3, b0 = v % 2 ^ 8 ∧ b1 = v / 2 ^ 8 % 2 ^ 8 ∧ b2 = v / 2 ^ 16 % 2 ^ 8 ∧
        b3 = v / 2 ^ 24 ∧
        b0 < 2 ^ 8 ∧ b1 < 2 ^ 8 ∧ b2 < 2 ^ 8 ∧ b3 < 2 ^ 8 ∧
        v = b0 + b1 * 2 ^ 8 + b2 * 2 ^ 16 + b3 * 2 ^ 24 :=
    ⟨v % 2 ^ 8, v / 2 ^ 8 % 2 ^ 8, v / 2 ^ 16 % 2 ^ 8, v / 2 ^ 24,
      rfl, rfl, rfl, rfl, by omega, by omega, by omega, by omega, by omega⟩
  have hor1 : (v <<< 8) % 2 ^ 32 &&& 0xFF00FF00 ||| v >>> 8 &&& 0x00FF00FF
      = ((v <<< 8) % 2 ^ 32 &&& 0xFF00FF00) + (v >>> 8 &&& 0x00FF00FF) :=
    or_eq_add (and_masked_disjoint _ _ _ _ (by rw [mask_00FF00FF]; norm_num))
  have hA : (v <<< 8) % 2 ^ 32 &&& 0xFF00FF00 = b2 * 2 ^ 24 + b0 * 2 ^ 8 := by
    rw [shiftLeft_mul, mask_FF00FF00]
    omega
  have hB : v >>> 8 &&& 0x00FF00FF = b3 * 2 ^ 16 + b1 := by
    rw [shiftRight_div, mask_00FF00FF]
    omega
  rw [hor1, hA, hB,
    rotate16 (show b2 * 2 ^ 24 + b0 * 2 ^ 8 + (b3 * 2 ^ 16 + b1) < 2 ^ 32 by omega)]
  have h1 : (b2 * 2 ^ 24 + b0 * 2 ^ 8 + (b3 * 2 ^ 16 + b1)) % 2 ^ 16
      = b0 * 2 ^ 8 + b1 := by omega
  have h2 : (b2 * 2 ^ 24 + b0 * 2 ^ 8 + (b3 * 2 ^ 16 + b1)) / 2 ^ 16
      = b2 * 2 ^ 8 + b3 := by omega
  rw [h1, h2]
  unfold byterev4
  have e3 : v / 2 ^ 24 % 2 ^ 8 = b3 := by rw [hd3]; omega
  rw [← hd0, ← hd1, ← hd2, e3]
  ring

set_option maxHeartbeats 1000000 in
theorem swap_uint64_eq (x : Nat) : swap_uint64 x = byterev8 (x % 2 ^ 64) := by
  simp only [swap_uint64]
  generalize hgen : x % 2 ^ 64 = v
  have hx : v < 2 ^ 64 := hgen ▸ Nat.mod_lt _ (by norm_num)
  clear hgen
  obtain ⟨b0, b1, b2, b3, b4, b5, b6, b7,
      hd0, hd1, hd2, hd3, hd4, hd5, hd6, hd7,
      hb0, hb1, hb2, hb3, hb4, hb5, hb6, hb7, hv⟩ :
      ∃ b0 b1 b2 b3 b4 b5 b6 b7,
        b0 = v % 2 ^ 8 ∧ b1 = v / 2 ^ 8 % 2 ^ 8 ∧ b2 = v / 2 ^ 16 % 2 ^ 8 ∧
        b3 = v / 2 ^ 24 % 2 ^ 8 ∧ b4 = v / 2 ^ 32 % 2 ^ 8 ∧ b5 = v / 2 ^ 40 % 2 ^ 8 ∧
        b6 = v / 2 ^ 48 % 2 ^ 8 ∧ b7 = v / 2 ^ 56 ∧
        b0 < 2 ^ 8 ∧ b1 < 2 ^ 8 ∧ b2 < 2 ^ 8 ∧ b3 < 2 ^ 8 ∧
        b4 < 2 ^ 8 ∧ b5 < 2 ^ 8 ∧ b6 < 2 ^ 8 ∧ b7 < 2 ^ 8 ∧
        v = b0 + b1 * 2 ^ 8 + b2 * 2 ^ 16 + b3 * 2 ^ 24 +
            b4 * 2 ^ 32 + b5 * 2 ^ 40 + b6 * 2 ^ 48 + b7 * 2 ^ 56 :=
    ⟨v % 2 ^ 8, v / 2 ^ 8 % 2 ^ 8, v / 2 ^ 16 % 2 ^ 8, v / 2 ^ 24 % 2 ^ 8,
      v / 2 ^ 32 % 2 ^ 8, v / 2 ^ 40 % 2 ^ 8, v / 2 ^ 48 % 2 ^ 8, v / 2 ^ 56,
      rfl, rfl, rfl, rfl, rfl, rfl, rfl, rfl,
      by omega, by omega, by omega, by omega, by omega, by omega, by omega, by omega,
      by omega⟩
  have hs1 : v * 2 ^ 8 % 2 ^ 64
      = b0 * 2 ^ 8 + b1 * 2 ^ 16 + b2 * 2 ^ 24 + b3 * 2 ^ 32 +
        b4 * 2 ^ 40 + b5 * 2 ^ 48 + b6 * 2 ^ 56 := by
    clear hd0 hd1 hd2 hd3 hd4 hd5 hd6 hd7
    omega
  have hr1 : v / 2 ^ 8
      = b1 + b2 * 2 ^ 8 + b3 * 2 ^ 16 + b4 * 2 ^ 24 +
        b5 * 2 ^ 32 + b6 * 2 ^ 40 + b7 * 2 ^ 48 := by
    clear hd0 hd1 hd2 hd3 hd4 hd5 hd6 hd7
    omega
  have hA1 : (v <<< 8) % 2 ^ 64 &&& 0xFF00FF00FF00FF00
      = b6 * 2 ^ 56 + b4 * 2 ^ 40 + b2 * 2 ^ 24 + b0 * 2 ^ 8 := by
    rw [shiftLeft_mul, hs1, mask_FF00FF00FF00FF00]
    clear hd0 hd1 hd2 hd3 hd4 hd5 hd6 hd7 hv hx hs1 hr1
    omega
  have hB1 : v >>> 8 &&& 0x00FF00FF00FF00FF
      = b7 * 2 ^ 48 + b5 * 2 ^ 32 + b3 * 2 ^ 16 + b1 := by
    rw [shiftRight_div, hr1, mask_00FF00FF00FF00FF]
    clear hd0 hd1 hd2 hd3 hd4 hd5 hd6 hd7 hv hx hs1 hr1
    omega
  have hor1 : (v <<< 8) % 2 ^ 64 &&& 0xFF00FF00FF00FF00 ||| v >>> 8 &&& 0x00FF00FF00FF00FF
      = ((v <<< 8) % 2 ^ 64 &&& 0xFF00FF00FF00FF00) + (v >>> 8 &&& 0x00FF00FF00FF00FF) :=
    or_eq_add (and_masked_disjoint _ _ _ _ (by rw [mask_00FF00FF00FF00FF]; norm_num))
  rw [hor1, hA1, hB1]
  clear hor1 hA1 hB1 hs1 hr1
  have hs2 : (b6 * 2 ^ 56 + b4 * 2 ^ 40 + b2 * 2 ^ 24 + b0 * 2 ^ 8 +
        (b7 * 2 ^ 48 + b5 * 2 ^ 32 + b3 * 2 ^ 16 + b1)) * 2 ^ 16 % 2 ^ 64
      = b4 * 2 ^ 56 + b2 * 2 ^ 40 + b0 * 2 ^ 24 +
        (b5 * 2 ^ 48 + b3 * 2 ^ 32 + b1 * 2 ^ 16) := by
    clear hd0 hd1 hd2 hd3 hd4 hd5 hd6 hd7 hv hx
    omega
  have hr2 : (b6 * 2 ^ 56 + b4 * 2 ^ 40 + b2 * 2 ^ 24 + b0 * 2 ^ 8 +
        (b7 * 2 ^ 48 + b5 * 2 ^ 32 + b3 * 2 ^ 16 + b1)) / 2 ^ 16
      = b6 * 2 ^ 40 + b4 * 2 ^ 24 + b2 * 2 ^ 8 + (b7 * 2 ^ 32 + b5 * 2 ^ 16 + b3) := by
    clear hd0 hd1 hd2 hd3 hd4 hd5 hd6 hd7 hv hx
    omega
  have hA2 : ((b6 * 2 ^ 56 + b4 * 2 ^ 40 + b2 * 2 ^ 24 + b0 * 2 ^ 8 +
        (b7 * 2 ^ 48 + b5 * 2 ^ 32 + b3 * 2 ^ 16 + b1)) <<< 16) % 2 ^ 64 &&&
        0xFFFF0000FFFF0000
      = b4 * 2 ^ 56 + b5 * 2 ^ 48 + b0 * 2 ^ 24 + b1 * 2 ^ 16 := by
    rw [shiftLeft_mul, hs2, mask_FFFF0000FFFF0000]
    clear hd0 hd1 hd2 hd3 hd4 hd5 hd6 hd7 hv hx hs2 hr2
    omega
  have hB2 : (b6 * 2 ^ 56 + b4 * 2 ^ 40 + b2 * 2 ^ 24 + b0 * 2 ^ 8 +
        (b7 * 2 ^ 48 + b5 * 2 ^ 32 + b3 * 2 ^ 16 + b1)) >>> 16 &&& 0x0000FFFF0000FFFF
      = b6 * 2 ^ 40 + b7 * 2 ^ 32 + b2 * 2 ^ 8 + b3 := by
    rw [shiftRight_div, hr2, mask_0000FFFF0000FFFF]
    clear hd0 hd1 hd2 hd3 hd4 hd5 hd6 hd7 hv hx hs2 hr2
    omega
  have hor2 : ((b6 * 2 ^ 56 + b4 * 2 ^ 40 + b2 * 2 ^ 24 + b0 * 2 ^ 8 +
          (b7 * 2 ^ 48 + b5 * 2 ^ 32 + b3 * 2 ^ 16 + b1)) <<< 16) % 2 ^ 64 &&&
          0xFFFF0000FFFF0000 |||
        (b6 * 2 ^ 56 + b4 * 2 ^ 40 + b2 * 2 ^ 24 + b0 * 2 ^ 8 +
          (b7 * 2 ^ 48 + b5 * 2 ^ 32 + b3 * 2 ^ 16 + b1)) >>> 16 &&& 0x0000FFFF0000FFFF
      = (((b6 * 2 ^ 56 + b4 * 2 ^ 40 + b2 * 2 ^ 24 + b0 * 2 ^ 8 +
          (b7 * 2 ^ 48 + b5 * 2 ^ 32 + b3 * 2 ^ 16 + b1)) <<< 16) % 2 ^ 64 &&&
          0xFFFF0000FFFF0000) +
        ((b6 * 2 ^ 56 + b4 * 2 ^ 40 + b2 * 2 ^ 24 + b0 * 2 ^ 8 +
          (b7 * 2 ^ 48 + b5 * 2 ^ 32 + b3 * 2 ^ 16 + b1)) >>> 16 &&& 0x0000FFFF0000FFFF) :=
    or_eq_add (and_masked_disjoint _ _ _ _ (by rw [mask_0000FFFF0000FFFF]; norm_num))
  rw [hor2, hA2, hB2,
    rotate32 (show b4 * 2 ^ 56 + b5 * 2 ^ 48 + b0 * 2 ^ 24 + b1 * 2 ^ 16 +
      (b6 * 2 ^ 40 + b7 * 2 ^ 32 + b2 * 2 ^ 8 + b3) < 2 ^ 64 by omega)]
  clear hor2 hA2 hB2 hs2 hr2
  have h1 : (b4 * 2 ^ 56 + b5 * 2 ^ 48 + b0 * 2 ^ 24 + b1 * 2 ^ 16 +
      (b6 * 2 ^ 40 + b7 * 2 ^ 32 + b2 * 2 ^ 8 + b3)) % 2 ^ 32
      = b0 * 2 ^ 24 + b1 * 2 ^ 16 + b2 * 2 ^ 8 + b3 := by
    clear hd0 hd1 hd2 hd3 hd4 hd5 hd6 hd7 hv hx
    omega
  have h2 : (b4 * 2 ^ 56 + b5 * 2 ^ 48 + b0 * 2 ^ 24 + b1 * 2 ^ 16 +
      (b6 * 2 ^ 40 + b7 * 2 ^ 32 + b2 * 2 ^ 8 + b3)) / 2 ^ 32
      = b4 * 2 ^ 24 + b5 * 2 ^ 16 + b6 * 2 ^ 8 + b7 := by
    clear hd0 hd1 hd2 hd3 hd4 hd5 hd6 hd7 hv hx
    omega
  rw [h1, h2]
  unfold byterev8
  have e7 : v / 2 ^ 56 % 2 ^ 8 = b7 := by rw [hd7]; omega
  rw [← hd0, ← hd1, ← hd2, ← hd3, ← hd4, ← hd5, ← hd6, e7]
  ring

theorem and_low (y M m : Nat) (hM : M < 2 ^ m) : y &&& M = y % 2 ^ m &&& M := by
  apply Nat.eq_of_testBit_eq
  intro i
  simp only [Nat.testBit_and, Nat.testBit_mod_two_pow]
  by_cases him : i < m
  · simp [decide_eq_true him]
  · have hMi : M.testBit i = false :=
      Nat.testBit_lt_two_pow
        (lt_of_lt_of_le hM (Nat.pow_le_pow_right (by norm_num) (by omega)))
    simp [hMi]

theorem sar_and (W k M x : Nat) (hkW : k ≤ W) (hM : M < 2 ^ (W - k)) :
    sar W k x &&& M = (x % 2 ^ W) >>> k &&& M := by
  unfold sar
  split_ifs with h
  · rfl
  · rw [and_low _ M (W - k) hM, and_low ((x % 2 ^ W) >>> k) M (W - k) hM]
    congr 1
    rw [shiftRight_div, shiftRight_div]
    have hWk : (2 : Nat) ^ W = 2 ^ (W - k) * 2 ^ k := by
      rw [← pow_add]
      congr 1
      omega
    have h2 : 2 ^ W * (2 ^ k - 1) = (2 ^ k - 1) * 2 ^ (W - k) * 2 ^ k := by
      rw [hWk]
      ring
    rw [h2, Nat.add_mul_div_right _ _ (Nat.two_pow_pos k),
      Nat.add_mul_mod_self_right]

theorem mul_mod_split24_8 (p : Nat) : p * 2 ^ 8 % 2 ^ 32 = p % 2 ^ 24 * 2 ^ 8 := by
  rw [show (2 : Nat) ^ 32 = 2 ^ 24 * 2 ^ 8 by norm_num, Nat.mul_mod_mul_right]

theorem swap_int16_eq (x : Nat) : swap_int16 x = byterev2 (x % 2 ^ 16) := by
  unfold swap_int16
  have hs : sext 16 32 x < 2 ^ 32 := by
    unfold sext
    split_ifs <;> omega
  rw [sar_and 32 8 0xFF (sext 16 32 x) (by norm_num) (by norm_num),
    Nat.mod_eq_of_lt hs, mask_FF]
  have hm1 : (sext 16 32 x <<< 8) % 2 ^ 32 = sext 16 32 x % 2 ^ 24 * 2 ^ 8 := by
    rw [shiftLeft_mul, mul_mod_split24_8]
  rw [hm1, mul_or_eq_add _ (Nat.mod_lt _ (by norm_num) :
    sext 16 32 x >>> 8 % 2 ^ 8 < 2 ^ 8)]
  rw [shiftRight_div, mul_add_mod16 _ (Nat.mod_lt _ (by norm_num) :
    sext 16 32 x / 2 ^ 8 % 2 ^ 8 < 2 ^ 8)]
  unfold sext byterev2
  split_ifs with h <;> omega

theorem swap_int32_eq_uint (x : Nat) : swap_int32 x = swap_uint32 x := by
  simp only [swap_int32, swap_uint32]
  generalize hgen : x % 2 ^ 32 = v
  have hx : v < 2 ^ 32 := hgen ▸ Nat.mod_lt _ (by norm_num)
  clear hgen
  rw [sar_and 32 8 0x00FF00FF v (by norm_num) (by norm_num), Nat.mod_eq_of_lt hx]
  have hE : ((v <<< 8) % 2 ^ 32 &&& 0xFF00FF00 ||| v >>> 8 &&& 0x00FF00FF) < 2 ^ 32 :=
    Nat.or_lt_two_pow (lt_of_le_of_lt Nat.and_le_right (by norm_num))
      (lt_of_le_of_lt Nat.and_le_right (by norm_num))
  rw [sar_and 32 16 0xFFFF _ (by norm_num) (by norm_num), Nat.mod_eq_of_lt hE, mask_FFFF,
    Nat.mod_eq_of_lt (show ((v <<< 8) % 2 ^ 32 &&& 0xFF00FF00 ||| v >>> 8 &&& 0x00FF00FF) >>> 16
      < 2 ^ 16 by rw [shiftRight_div]; omega)]

theorem swap_int32_eq (x : Nat) : swap_int32 x = byterev4 (x % 2 ^ 32) :=
  (swap_int32_eq_uint x).trans (swap_uint32_eq x)

theorem swap_int64_eq_uint (x : Nat) : swap_int64 x = swap_uint64 x := by
  simp only [swap_int64, swap_uint64]
  generalize hgen : x % 2 ^ 64 = v
  have hx : v < 2 ^ 64 := hgen ▸ Nat.mod_lt _ (by norm_num)
  clear hgen
  rw [sar_and 64 8 0x00FF00FF00FF00FF v (by norm_num) (by norm_num), Nat.mod_eq_of_lt hx]
  have hE1 : ((v <<< 8) % 2 ^ 64 &&& 0xFF00FF00FF00FF00 |||
      v >>> 8 &&& 0x00FF00FF00FF00FF) < 2 ^ 64 :=
    Nat.or_lt_two_pow (lt_of_le_of_lt Nat.and_le_right (by norm_num))
      (lt_of_le_of_lt Nat.and_le_right (by norm_num))
  rw [sar_and 64 16 0x0000FFFF0000FFFF _ (by norm_num) (by norm_num), Nat.mod_eq_of_lt hE1]
  have hE2 : ((((v <<< 8) % 2 ^ 64 &&& 0xFF00FF00FF00FF00 |||
        v >>> 8 &&& 0x00FF00FF00FF00FF) <<< 16) % 2 ^ 64 &&& 0xFFFF0000FFFF0000 |||
      ((v <<< 8) % 2 ^ 64 &&& 0xFF00FF00FF00FF00 |||
        v >>> 8 &&& 0x00FF00FF00FF00FF) >>> 16 &&& 0x0000FFFF0000FFFF) < 2 ^ 64 :=
    Nat.or_lt_two_pow (lt_of_le_of_lt Nat.and_le_right (by norm_num))
      (lt_of_le_of_lt Nat.and_le_right (by norm_num))
  rw [sar_and 64 32 0xFFFFFFFF _ (by norm_num) (by norm_num), Nat.mod_eq_of_lt hE2,
    mask_FFFFFFFF,
    Nat.mod_eq_of_lt (show ((((v <<< 8) % 2 ^ 64 &&& 0xFF00FF00FF00FF00 |||
        v >>> 8 &&& 0x00FF00FF00FF00FF) <<< 16) % 2 ^ 64 &&& 0xFFFF0000FFFF0000 |||
      ((v <<< 8) % 2 ^ 64 &&& 0xFF00FF00FF00FF00 |||
        v >>> 8 &&& 0x00FF00FF00FF00FF) >>> 16 &&& 0x0000FFFF0000FFFF) >>> 32
      < 2 ^ 32 by rw [shiftRight_div]; omega)]

theorem swap_int64_eq (x : Nat) : swap_int64 x = byterev8 (x % 2 ^ 64) :=
  (swap_int64_eq_uint x).trans (swap_uint64_eq x)

theorem swap_int16_eq_uint (x : Nat) : swap_int16 x = swap_uint16 x :=
  (swap_int16_eq x).trans (swap_uint16_eq x).symm

theorem byterev2_lt (x : Nat) : byterev2 x < 2 ^ 16 := by
  unfold byterev2
  omega

theorem byterev4_lt (x : Nat) : byterev4 x < 2 ^ 32 := by
  unfold byterev4
  omega

theorem byterev8_lt (x : Nat) : byterev8 x < 2 ^ 64 := by
  unfold byterev8
  omega

theorem split8 {lo : Nat} (hi : Nat) (hlo : lo < 2 ^ 8) :
    (lo + hi * 2 ^ 8) % 2 ^ 8 = lo ∧ (lo + hi * 2 ^ 8) / 2 ^ 8 = hi := by
  constructor
  · rw [Nat.add_mul_mod_self_right, Nat.mod_eq_of_lt hlo]
  · rw [Nat.add_mul_div_right _ _ (show (0 : Nat) < 2 ^ 8 by norm_num),
      Nat.div_eq_of_lt hlo, Nat.zero_add]

theorem div16_eq (y : Nat) : y / 2 ^ 16 = y / 2 ^ 8 / 2 ^ 8 := by
  rw [Nat.div_div_eq_div_mul]
  norm_num

theorem div24_eq (y : Nat) : y / 2 ^ 24 = y / 2 ^ 16 / 2 ^ 8 := by
  rw [Nat.div_div_eq_div_mul]
  norm_num

theorem div32_eq (y : Nat) : y / 2 ^ 32 = y / 2 ^ 24 / 2 ^ 8 := by
  rw [Nat.div_div_eq_div_mul]
  norm_num

theorem div40_eq (y : Nat) : y / 2 ^ 40 = y / 2 ^ 32 / 2 ^ 8 := by
  rw [Nat.div_div_eq_div_mul]
  norm_num

theorem div48_eq (y : Nat) : y / 2 ^ 48 = y / 2 ^ 40 / 2 ^ 8 := by
  rw [Nat.div_div_eq_div_mul]
  norm_num

theorem div56_eq (y : Nat) : y / 2 ^ 56 = y / 2 ^ 48 / 2 ^ 8 := by
  rw [Nat.div_div_eq_div_mul]
  norm_num

theorem byterev2_inv {x : Nat} (h : x < 2 ^ 16) : byterev2 (byterev2 x) = x := by
  obtain ⟨b0, b1, hd0, hd1, hb0, hb1, hv⟩ :
      ∃ b0 b1, b0 = x % 2 ^ 8 ∧ b1 = x / 2 ^ 8 ∧ b0 < 2 ^ 8 ∧ b1 < 2 ^ 8 ∧
        x = b0 + b1 * 2 ^ 8 :=
    ⟨x % 2 ^ 8, x / 2 ^ 8, rfl, rfl, by omega, by omega, by omega⟩
  have hb : byterev2 x = b1 + b0 * 2 ^ 8 := by
    unfold byterev2
    have e1 : x / 2 ^ 8 % 2 ^ 8 = b1 := by rw [hd1]; omega
    rw [← hd0, e1]
    ring
  rw [hb]
  unfold byterev2
  rw [(split8 b0 hb1).1, (split8 b0 hb1).2, Nat.mod_eq_of_lt hb0, hv]
  ring

theorem byterev4_inv {x : Nat} (h : x < 2 ^ 32) : byterev4 (byterev4 x) = x := by
  obtain ⟨b0, b1, b2, b3, hd0, hd1, hd2, hd3, hb0, hb1, hb2, hb3, hv⟩ :
      ∃ b0 b1 b2 b3, b0 = x % 2 ^ 8 ∧ b1 = x / 2 ^ 8 % 2 ^ 8 ∧ b2 = x / 2 ^ 16 % 2 ^ 8 ∧
        b3 = x / 2 ^ 24 ∧
        b0 < 2 ^ 8 ∧ b1 < 2 ^ 8 ∧ b2 < 2 ^ 8 ∧ b3 < 2 ^ 8 ∧
        x = b0 + b1 * 2 ^ 8 + b2 * 2 ^ 16 + b3 * 2 ^ 24 :=
    ⟨x % 2 ^ 8, x / 2 ^ 8 % 2 ^ 8, x / 2 ^ 16 % 2 ^ 8, x / 2 ^ 24,
      rfl, rfl, rfl, rfl, by omega, by omega, by omega, by omega, by omega⟩
  have hb : byterev4 x = b3 + (b2 + (b1 + b0 * 2 ^ 8) * 2 ^ 8) * 2 ^ 8 := by
    unfold byterev4
    have e3 : x / 2 ^ 24 % 2 ^ 8 = b3 := by rw [hd3]; omega
    rw [← hd0, ← hd1, ← hd2, e3]
    ring
  have d1 : (b3 + (b2 + (b1 + b0 * 2 ^ 8) * 2 ^ 8) * 2 ^ 8) / 2 ^ 8
      = b2 + (b1 + b0 * 2 ^ 8) * 2 ^ 8 := (split8 _ hb3).2
  have d2 : (b3 + (b2 + (b1 + b0 * 2 ^ 8) * 2 ^ 8) * 2 ^ 8) / 2 ^ 16
      = b1 + b0 * 2 ^ 8 := by
    rw [div16_eq, d1]
    exact (split8 _ hb2).2
  have d3 : (b3 + (b2 + (b1 + b0 * 2 ^ 8) * 2 ^ 8) * 2 ^ 8) / 2 ^ 24 = b0 := by
    rw [div24_eq, d2]
    exact (split8 _ hb1).2
  rw [hb]
  unfold byterev4
  rw [(split8 _ hb3).1, d1, (split8 _ hb2).1, d2, (split8 _ hb1).1, d3,
    Nat.mod_eq_of_lt hb0, hv]
  ring

theorem byterev8_inv {x : Nat} (h : x < 2 ^ 64) : byterev8 (byterev8 x) = x := by
  obtain ⟨b0, b1, b2, b3, b4, b5, b6, b7,
      hd0, hd1, hd2, hd3, hd4, hd5, hd6, hd7,
      hb0, hb1, hb2, hb3, hb4, hb5, hb6, hb7, hv⟩ :
      ∃ b0 b1 b2 b3 b4 b5 b6 b7,
        b0 = x % 2 ^ 8 ∧ b1 = x / 2 ^ 8 % 2 ^ 8 ∧ b2 = x / 2 ^ 16 % 2 ^ 8 ∧
        b3 = x / 2 ^ 24 % 2 ^ 8 ∧ b4 = x / 2 ^ 32 % 2 ^ 8 ∧ b5 = x / 2 ^ 40 % 2 ^ 8 ∧
        b6 = x / 2 ^ 48 % 2 ^ 8 ∧ b7 = x / 2 ^ 56 ∧
        b0 < 2 ^ 8 ∧ b1 < 2 ^ 8 ∧ b2 < 2 ^ 8 ∧ b3 < 2 ^ 8 ∧
        b4 < 2 ^ 8 ∧ b5 < 2 ^ 8 ∧ b6 < 2 ^ 8 ∧ b7 < 2 ^ 8 ∧
        x = b0 + b1 * 2 ^ 8 + b2 * 2 ^ 16 + b3 * 2 ^ 24 +
            b4 * 2 ^ 32 + b5 * 2 ^ 40 + b6 * 2 ^ 48 + b7 * 2 ^ 56 :=
    ⟨x % 2 ^ 8, x / 2 ^ 8 % 2 ^ 8, x / 2 ^ 16 % 2 ^ 8, x / 2 ^ 24 % 2 ^ 8,
      x / 2 ^ 32 % 2 ^ 8, x / 2 ^ 40 % 2 ^ 8, x / 2 ^ 48 % 2 ^ 8, x / 2 ^ 56,
      rfl, rfl, rfl, rfl, rfl, rfl, rfl, rfl,
      by omega, by omega, by omega, by omega, by omega, by omega, by omega, by omega,
      by omega⟩
  have hb : byterev8 x = b7 + (b6 + (b5 + (b4 + (b3 + (b2 + (b1 + b0 * 2 ^ 8) * 2 ^ 8) *
      2 ^ 8) * 2 ^ 8) * 2 ^ 8) * 2 ^ 8) * 2 ^ 8 := by
    unfold byterev8
    have e7 : x / 2 ^ 56 % 2 ^ 8 = b7 := by rw [hd7]; omega
    rw [← hd0, ← hd1, ← hd2, ← hd3, ← hd4, ← hd5, ← hd6, e7]
    ring
  have d1 : (b7 + (b6 + (b5 + (b4 + (b3 + (b2 + (b1 + b0 * 2 ^ 8) * 2 ^ 8) * 2 ^ 8) *
        2 ^ 8) * 2 ^ 8) * 2 ^ 8) * 2 ^ 8) / 2 ^ 8
      = b6 + (b5 + (b4 + (b3 + (b2 + (b1 + b0 * 2 ^ 8) * 2 ^ 8) * 2 ^ 8) * 2 ^ 8) *
        2 ^ 8) * 2 ^ 8 := (split8 _ hb7).2
  have d2 : (b7 + (b6 + (b5 + (b4 + (b3 + (b2 + (b1 + b0 * 2 ^ 8) * 2 ^ 8) * 2 ^ 8) *
        2 ^ 8) * 2 ^ 8) * 2 ^ 8) * 2 ^ 8) / 2 ^ 16
      = b5 + (b4 + (b3 + (b2 + (b1 + b0 * 2 ^ 8) * 2 ^ 8) * 2 ^ 8) * 2 ^ 8) * 2 ^ 8 := by
    rw [div16_eq, d1]
    exact (split8 _ hb6).2
  have d3 : (b7 + (b6 + (b5 + (b4 + (b3 + (b2 + (b1 + b0 * 2 ^ 8) * 2 ^ 8) * 2 ^ 8) *
        2 ^ 8) * 2 ^ 8) * 2 ^ 8) * 2 ^ 8) / 2 ^ 24
      = b4 + (b3 + (b2 + (b1 + b0 * 2 ^ 8) * 2 ^ 8) * 2 ^ 8) * 2 ^ 8 := by
    rw [div24_eq, d2]
    exact (split8 _ hb5).2
  have d4 : (b7 + (b6 + (b5 + (b4 + (b3 + (b2 + (b1 + b0 * 2 ^ 8) * 2 ^ 8) * 2 ^ 8) *
        2 ^ 8) * 2 ^ 8) * 2 ^ 8) * 2 ^ 8) / 2 ^ 32
      = b3 + (b2 + (b1 + b0 * 2 ^ 8) * 2 ^ 8) * 2 ^ 8 := by
    rw [div32_eq, d3]
    exact (split8 _ hb4).2
  have d5 : (b7 + (b6 + (b5 + (b4 + (b3 + (b2 + (b1 + b0 * 2 ^ 8) * 2 ^ 8) * 2 ^ 8) *
        2 ^ 8) * 2 ^ 8) * 2 ^ 8) * 2 ^ 8) / 2 ^ 40
      = b2 + (b1 + b0 * 2 ^ 8) * 2 ^ 8 := by
    rw [div40_eq, d4]
    exact (split8 _ hb3).2
  have d6 : (b7 + (b6 + (b5 + (b4 + (b3 + (b2 + (b1 + b0 * 2 ^ 8) * 2 ^ 8) * 2 ^ 8) *
        2 ^ 8) * 2 ^ 8) * 2 ^ 8) * 2 ^ 8) / 2 ^ 48
      = b1 + b0 * 2 ^ 8 := by
    rw [div48_eq, d5]
    exact (split8 _ hb2).2
  have d7 : (b7 + (b6 + (b5 + (b4 + (b3 + (b2 + (b1 + b0 * 2 ^ 8) * 2 ^ 8) * 2 ^ 8) *
        2 ^ 8) * 2 ^ 8) * 2 ^ 8) * 2 ^ 8) / 2 ^ 56 = b0 := by
    rw [div56_eq, d6]
    exact (split8 _ hb1).2
  rw [hb]
  unfold byterev8
  rw [(split8 _ hb7).1, d1, (split8 _ hb6).1, d2, (split8 _ hb5).1, d3,
    (split8 _ hb4).1, d4, (split8 _ hb3).1, d5, (split8 _ hb2).1, d6,
    (split8 _ hb1).1, d7, Nat.mod_eq_of_lt hb0, hv]
  ring

theorem bytesOf2_def (y : Nat) : bytesOf 2 y = [y % 2 ^ 8, y / 2 ^ 8 % 2 ^ 8] := by
  unfold bytesOf
  rw [show List.range 2 = [0, 1] from rfl]
  simp only [List.map_cons, List.map_nil]
  norm_num

theorem bytesOf4_def (y : Nat) :
    bytesOf 4 y = [y % 2 ^ 8, y / 2 ^ 8 % 2 ^ 8, y / 2 ^ 16 % 2 ^ 8, y / 2 ^ 24 % 2 ^ 8] := by
  unfold bytesOf
  rw [show List.range 4 = [0, 1, 2, 3] from rfl]
  simp only [List.map_cons, List.map_nil]
  norm_num

theorem bytesOf8_def (y : Nat) :
    bytesOf 8 y = [y % 2 ^ 8, y / 2 ^ 8 % 2 ^ 8, y / 2 ^ 16 % 2 ^ 8, y / 2 ^ 24 % 2 ^ 8,
      y / 2 ^ 32 % 2 ^ 8, y / 2 ^ 40 % 2 ^ 8, y / 2 ^ 48 % 2 ^ 8, y / 2 ^ 56 % 2 ^ 8] := by
  unfold bytesOf
  rw [show List.range 8 = [0, 1, 2, 3, 4, 5, 6, 7] from rfl]
  simp only [List.map_cons, List.map_nil]
  norm_num

theorem byterev2_bytes (x : Nat) :
    byterev2 x % 2 ^ 8 = x / 2 ^ 8 % 2 ^ 8 ∧
    byterev2 x / 2 ^ 8 % 2 ^ 8 = x % 2 ^ 8 := by
  have hR : byterev2 x = x / 2 ^ 8 % 2 ^ 8 + x % 2 ^ 8 * 2 ^ 8 := by
    unfold byterev2
    ring
  have h1 : x / 2 ^ 8 % 2 ^ 8 < 2 ^ 8 := Nat.mod_lt _ (by norm_num)
  refine ⟨?_, ?_⟩
  · rw [hR, (split8 _ h1).1]
  · rw [hR, (split8 _ h1).2, Nat.mod_eq_of_lt (Nat.mod_lt x (by norm_num))]

theorem byterev4_bytes (x : Nat) :
    byterev4 x % 2 ^ 8 = x / 2 ^ 24 % 2 ^ 8 ∧
    byterev4 x / 2 ^ 8 % 2 ^ 8 = x / 2 ^ 16 % 2 ^ 8 ∧
    byterev4 x / 2 ^ 16 % 2 ^ 8 = x / 2 ^ 8 % 2 ^ 8 ∧
    byterev4 x / 2 ^ 24 % 2 ^ 8 = x % 2 ^ 8 := by
  have hR : byterev4 x = x / 2 ^ 24 % 2 ^ 8 +
      (x / 2 ^ 16 % 2 ^ 8 + (x / 2 ^ 8 % 2 ^ 8 + x % 2 ^ 8 * 2 ^ 8) * 2 ^ 8) * 2 ^ 8 := by
    unfold byterev4
    ring
  have h3 : x / 2 ^ 24 % 2 ^ 8 < 2 ^ 8 := Nat.mod_lt _ (by norm_num)
  have h2 : x / 2 ^ 16 % 2 ^ 8 < 2 ^ 8 := Nat.mod_lt _ (by norm_num)
  have h1 : x / 2 ^ 8 % 2 ^ 8 < 2 ^ 8 := Nat.mod_lt _ (by norm_num)
  have d1 : byterev4 x / 2 ^ 8
      = x / 2 ^ 16 % 2 ^ 8 + (x / 2 ^ 8 % 2 ^ 8 + x % 2 ^ 8 * 2 ^ 8) * 2 ^ 8 := by
    rw [hR]
    exact (split8 _ h3).2
  have d2 : byterev4 x / 2 ^ 16 = x / 2 ^ 8 % 2 ^ 8 + x % 2 ^ 8 * 2 ^ 8 := by
    rw [div16_eq, d1]
    exact (split8 _ h2).2
  have d3 : byterev4 x / 2 ^ 24 = x % 2 ^ 8 := by
    rw [div24_eq, d2]
    exact (split8 _ h1).2
  refine ⟨?_, ?_, ?_, ?_⟩
  · rw [hR, (split8 _ h3).1]
  · rw [d1, (split8 _ h2).1]
  · rw [d2, (split8 _ h1).1]
  · rw [d3, Nat.mod_eq_of_lt (Nat.mod_lt x (by norm_num))]

theorem byterev8_bytes (x : Nat) :
    byterev8 x % 2 ^ 8 = x / 2 ^ 56 % 2 ^ 8 ∧
    byterev8 x / 2 ^ 8 % 2 ^ 8 = x / 2 ^ 48 % 2 ^ 8 ∧
    byterev8 x / 2 ^ 16 % 2 ^ 8 = x / 2 ^ 40 % 2 ^ 8 ∧
    byterev8 x / 2 ^ 24 % 2 ^ 8 = x / 2 ^ 32 % 2 ^ 8 ∧
    byterev8 x / 2 ^ 32 % 2 ^ 8 = x / 2 ^ 24 % 2 ^ 8 ∧
    byterev8 x / 2 ^ 40 % 2 ^ 8 = x / 2 ^ 16 % 2 ^ 8 ∧
    byterev8 x / 2 ^ 48 % 2 ^ 8 = x / 2 ^ 8 % 2 ^ 8 ∧
    byterev8 x / 2 ^ 56 % 2 ^ 8 = x % 2 ^ 8 := by
  have hR : byterev8 x = x / 2 ^ 56 % 2 ^ 8 + (x / 2 ^ 48 % 2 ^ 8 + (x / 2 ^ 40 % 2 ^ 8 +
      (x / 2 ^ 32 % 2 ^ 8 + (x / 2 ^ 24 % 2 ^ 8 + (x / 2 ^ 16 % 2 ^ 8 +
      (x / 2 ^ 8 % 2 ^ 8 + x % 2 ^ 8 * 2 ^ 8) * 2 ^ 8) * 2 ^ 8) * 2 ^ 8) * 2 ^ 8) *
      2 ^ 8) * 2 ^ 8 := by
    unfold byterev8
    ring
  have h7 : x / 2 ^ 56 % 2 ^ 8 < 2 ^ 8 := Nat.mod_lt _ (by norm_num)
  have h6 : x / 2 ^ 48 % 2 ^ 8 < 2 ^ 8 := Nat.mod_lt _ (by norm_num)
  have h5 : x / 2 ^ 40 % 2 ^ 8 < 2 ^ 8 := Nat.mod_lt _ (by norm_num)
  have h4 : x / 2 ^ 32 % 2 ^ 8 < 2 ^ 8 := Nat.mod_lt _ (by norm_num)
  have h3 : x / 2 ^ 24 % 2 ^ 8 < 2 ^ 8 := Nat.mod_lt _ (by norm_num)
  have h2 : x / 2 ^ 16 % 2 ^ 8 < 2 ^ 8 := Nat.mod_lt _ (by norm_num)
  have h1 : x / 2 ^ 8 % 2 ^ 8 < 2 ^ 8 := Nat.mod_lt _ (by norm_num)
  have d1 : byterev8 x / 2 ^ 8 = x / 2 ^ 48 % 2 ^ 8 + (x / 2 ^ 40 % 2 ^ 8 +
      (x / 2 ^ 32 % 2 ^ 8 + (x / 2 ^ 24 % 2 ^ 8 + (x / 2 ^ 16 % 2 ^ 8 +
      (x / 2 ^ 8 % 2 ^ 8 + x % 2 ^ 8 * 2 ^ 8) * 2 ^ 8) * 2 ^ 8) * 2 ^ 8) * 2 ^ 8) *
      2 ^ 8 := by
    rw [hR]
    exact (split8 _ h7).2
  have d2 : byterev8 x / 2 ^ 16 = x / 2 ^ 40 % 2 ^ 8 + (x / 2 ^ 32 % 2 ^ 8 +
      (x / 2 ^ 24 % 2 ^ 8 + (x / 2 ^ 16 % 2 ^ 8 + (x / 2 ^ 8 % 2 ^ 8 +
      x % 2 ^ 8 * 2 ^ 8) * 2 ^ 8) * 2 ^ 8) * 2 ^ 8) * 2 ^ 8 := by
    rw [div16_eq, d1]
    exact (split8 _ h6).2
  have d3 : byterev8 x / 2 ^ 24 = x / 2 ^ 32 % 2 ^ 8 + (x / 2 ^ 24 % 2 ^ 8 +
      (x / 2 ^ 16 % 2 ^ 8 + (x / 2 ^ 8 % 2 ^ 8 + x % 2 ^ 8 * 2 ^ 8) * 2 ^ 8) * 2 ^ 8) *
      2 ^ 8 := by
    rw [div24_eq, d2]
    exact (split8 _ h5).2
  have d4 : byterev8 x / 2 ^ 32 = x / 2 ^ 24 % 2 ^ 8 + (x / 2 ^ 16 % 2 ^ 8 +
      (x / 2 ^ 8 % 2 ^ 8 + x % 2 ^ 8 * 2 ^ 8) * 2 ^ 8) * 2 ^ 8 := by
    rw [div32_eq, d3]
    exact (split8 _ h4).2
  have d5 : byterev8 x / 2 ^ 40 = x / 2 ^ 16 % 2 ^ 8 + (x / 2 ^ 8 % 2 ^ 8 +
      x % 2 ^ 8 * 2 ^ 8) * 2 ^ 8 := by
    rw [div40_eq, d4]
    exact (split8 _ h3).2
  have d6 : byterev8 x / 2 ^ 48 = x / 2 ^ 8 % 2 ^ 8 + x % 2 ^ 8 * 2 ^ 8 := by
    rw [div48_eq, d5]
    exact (split8 _ h2).2
  have d7 : byterev8 x / 2 ^ 56 = x % 2 ^ 8 := by
    rw [div56_eq, d6]
    exact (split8 _ h1).2
  refine ⟨?_, ?_, ?_, ?_, ?_, ?_, ?_, ?_⟩
  · rw [hR, (split8 _ h7).1]
  · rw [d1, (split8 _ h6).1]
  · rw [d2, (split8 _ h5).1]
  · rw [d3, (split8 _ h4).1]
  · rw [d4, (split8 _ h3).1]
  · rw [d5, (split8 _ h2).1]
  · rw [d6, (split8 _ h1).1]
  · rw [d7, Nat.mod_eq_of_lt (Nat.mod_lt x (by norm_num))]

theorem bytesOf_byterev2 (x : Nat) : bytesOf 2 (byterev2 x) = (bytesOf 2 x).reverse := by
  rw [bytesOf2_def, bytesOf2_def,
    show ([x % 2 ^ 8, x / 2 ^ 8 % 2 ^ 8] : List Nat).reverse
      = [x / 2 ^ 8 % 2 ^ 8, x % 2 ^ 8] from rfl,
    (byterev2_bytes x).1, (byterev2_bytes x).2]

theorem bytesOf_byterev4 (x : Nat) : bytesOf 4 (byterev4 x) = (bytesOf 4 x).reverse := by
  rw [bytesOf4_def, bytesOf4_def,
    show ([x % 2 ^ 8, x / 2 ^ 8 % 2 ^ 8, x / 2 ^ 16 % 2 ^ 8, x / 2 ^ 24 % 2 ^ 8] :
        List Nat).reverse
      = [x / 2 ^ 24 % 2 ^ 8, x / 2 ^ 16 % 2 ^ 8, x / 2 ^ 8 % 2 ^ 8, x % 2 ^ 8] from rfl,
    (byterev4_bytes x).1, (byterev4_bytes x).2.1, (byterev4_bytes x).2.2.1,
    (byterev4_bytes x).2.2.2]

theorem bytesOf_byterev8 (x : Nat) : bytesOf 8 (byterev8 x) = (bytesOf 8 x).reverse := by
  rw [bytesOf8_def, bytesOf8_def,
    show ([x % 2 ^ 8, x / 2 ^ 8 % 2 ^ 8, x / 2 ^ 16 % 2 ^ 8, x / 2 ^ 24 % 2 ^ 8,
        x / 2 ^ 32 % 2 ^ 8, x / 2 ^ 40 % 2 ^ 8, x / 2 ^ 48 % 2 ^ 8, x / 2 ^ 56 % 2 ^ 8] :
        List Nat).reverse
      = [x / 2 ^ 56 % 2 ^ 8, x / 2 ^ 48 % 2 ^ 8, x / 2 ^ 40 % 2 ^ 8, x / 2 ^ 32 % 2 ^ 8,
        x / 2 ^ 24 % 2 ^ 8, x / 2 ^ 16 % 2 ^ 8, x / 2 ^ 8 % 2 ^ 8, x % 2 ^ 8] from rfl,
    (byterev8_bytes x).1, (byterev8_bytes x).2.1, (byterev8_bytes x).2.2.1,
    (byterev8_bytes x).2.2.2.1, (byterev8_bytes x).2.2.2.2.1,
    (byterev8_bytes x).2.2.2.2.2.1, (byterev8_bytes x).2.2.2.2.2.2.1,
    (byterev8_bytes x).2.2.2.2.2.2.2]

/-- C2: for every width W in {16, 32, 64} and both signednesses, the swap primitive
applied to a W-bit value whose bytes are [b0, b1, …, bk] returns the W-bit value whose
bytes are [bk, …, b1, b0] (full byte reversal). -/
theorem claim_C2 (x y z : Nat) (hx : x < 2 ^ 16) (hy : y < 2 ^ 32) (hz : z < 2 ^ 64) :
    bytesOf 2 (swap_uint16 x) = (bytesOf 2 x).reverse ∧
    bytesOf 2 (swap_int16 x) = (bytesOf 2 x).reverse ∧
    bytesOf 4 (swap_uint32 y) = (bytesOf 4 y).reverse ∧
    bytesOf 4 (swap_int32 y) = (bytesOf 4 y).reverse ∧
    bytesOf 8 (swap_uint64 z) = (bytesOf 8 z).reverse ∧
    bytesOf 8 (swap_int64 z) = (bytesOf 8 z).reverse := by
  rw [swap_uint16_eq, swap_int16_eq, swap_uint32_eq, swap_int32_eq, swap_uint64_eq,
    swap_int64_eq, Nat.mod_eq_of_lt hx, Nat.mod_eq_of_lt hy, Nat.mod_eq_of_lt hz]
  exact ⟨bytesOf_byterev2 x, bytesOf_byterev2 x, bytesOf_byterev4 y, bytesOf_byterev4 y,
    bytesOf_byterev8 z, bytesOf_byterev8 z⟩

/-- Witness for C2 at concrete inputs. -/
theorem claim_C2_witness :
    (0x0102 : Nat) < 2 ^ 16 ∧ (0x01020304 : Nat) < 2 ^ 32 ∧
    (0x0102030405060708 : Nat) < 2 ^ 64 ∧
    (bytesOf 2 (swap_uint16 0x0102) = (bytesOf 2 0x0102).reverse ∧
      bytesOf 2 (swap_int16 0x0102) = (bytesOf 2 0x0102).reverse ∧
      bytesOf 4 (swap_uint32 0x01020304) = (bytesOf 4 0x01020304).reverse ∧
      bytesOf 4 (swap_int32 0x01020304) = (bytesOf 4 0x01020304).reverse ∧
      bytesOf 8 (swap_uint64 0x0102030405060708) =
        (bytesOf 8 0x0102030405060708).reverse ∧
      bytesOf 8 (swap_int64 0x0102030405060708) =
        (bytesOf 8 0x0102030405060708).reverse) :=
  ⟨by norm_num, by norm_num, by norm_num,
    claim_C2 0x0102 0x01020304 0x0102030405060708 (by norm_num) (by norm_num)
      (by norm_num)⟩

/-- C3: for every width in {16, 32, 64} and both signednesses, the swap primitive is an
involution: swap (swap x) = x for every representable value, in particular 0, -1
(all-ones pattern), and the width's minimum and maximum. -/
theorem claim_C3 (x y z : Nat) (hx : x < 2 ^ 16) (hy : y < 2 ^ 32) (hz : z < 2 ^ 64) :
    swap_uint16 (swap_uint16 x) = x ∧ swap_int16 (swap_int16 x) = x ∧
    swap_uint32 (swap_uint32 y) = y ∧ swap_int32 (swap_int32 y) = y ∧
    swap_uint64 (swap_uint64 z) = z ∧ swap_int64 (swap_int64 z) = z := by
  refine ⟨?_, ?_, ?_, ?_, ?_, ?_⟩
  · rw [swap_uint16_eq, swap_uint16_eq, Nat.mod_eq_of_lt hx,
      Nat.mod_eq_of_lt (byterev2_lt x), byterev2_inv hx]
  · rw [swap_int16_eq, swap_int16_eq, Nat.mod_eq_of_lt hx,
      Nat.mod_eq_of_lt (byterev2_lt x), byterev2_inv hx]
  · rw [swap_uint32_eq, swap_uint32_eq, Nat.mod_eq_of_lt hy,
      Nat.mod_eq_of_lt (byterev4_lt y), byterev4_inv hy]
  · rw [swap_int32_eq, swap_int32_eq, Nat.mod_eq_of_lt hy,
      Nat.mod_eq_of_lt (byterev4_lt y), byterev4_inv hy]
  · rw [swap_uint64_eq, swap_uint64_eq, Nat.mod_eq_of_lt hz,
      Nat.mod_eq_of_lt (byterev8_lt z), byterev8_inv hz]
  · rw [swap_int64_eq, swap_int64_eq, Nat.mod_eq_of_lt hz,
      Nat.mod_eq_of_lt (byterev8_lt z), byterev8_inv hz]

/-- Witness for C3 at the all-ones (-1) 16-bit pattern, the signed-minimum 32-bit
pattern, and the signed-maximum 64-bit pattern. -/
theorem claim_C3_witness :
    (0xFFFF : Nat) < 2 ^ 16 ∧ (0x80000000 : Nat) < 2 ^ 32 ∧
    (0x7FFFFFFFFFFFFFFF : Nat) < 2 ^ 64 ∧
    (swap_uint16 (swap_uint16 0xFFFF) = 0xFFFF ∧
      swap_int16 (swap_int16 0xFFFF) = 0xFFFF ∧
      swap_uint32 (swap_uint32 0x80000000) = 0x80000000 ∧
      swap_int32 (swap_int32 0x80000000) = 0x80000000 ∧
      swap_uint64 (swap_uint64 0x7FFFFFFFFFFFFFFF) = 0x7FFFFFFFFFFFFFFF ∧
      swap_int64 (swap_int64 0x7FFFFFFFFFFFFFFF) = 0x7FFFFFFFFFFFFFFF) :=
  ⟨by norm_num, by norm_num, by norm_num,
    claim_C3 0xFFFF 0x80000000 0x7FFFFFFFFFFFFFFF (by norm_num) (by norm_num)
      (by norm_num)⟩

/-- C4: for every width W in {16, 32, 64} and every W-bit value, the signed swap routine
produces exactly the same two's-complement bit pattern as the unsigned swap routine of
the same width on the same bit pattern, including negative patterns and the signed
minimum. -/
theorem claim_C4 (x y z : Nat) (_hx : x < 2 ^ 16) (_hy : y < 2 ^ 32)
    (_hz : z < 2 ^ 64) :
    swap_int16 x = swap_uint16 x ∧ swap_int32 y = swap_uint32 y ∧
    swap_int64 z = swap_uint64 z := by
  exact ⟨swap_int16_eq_uint x, swap_int32_eq_uint y, swap_int64_eq_uint z⟩

/-- Witness for C4 at the signed-minimum patterns of each width. -/
theorem claim_C4_witness :
    (0x8000 : Nat) < 2 ^ 16 ∧ (0x80000000 : Nat) < 2 ^ 32 ∧
    (0x8000000000000000 : Nat) < 2 ^ 64 ∧
    (swap_int16 0x8000 = swap_uint16 0x8000 ∧
      swap_int32 0x80000000 = swap_uint32 0x80000000 ∧
      swap_int64 0x8000000000000000 = swap_uint64 0x8000000000000000) :=
  ⟨by norm_num, by norm_num, by norm_num,
    claim_C4 0x8000 0x80000000 0x8000000000000000 (by norm_num) (by norm_num)
      (by norm_num)⟩

/-- C5: isNative implements the decision table — a buffer tagged little (first format
char `<`) is native exactly on a little-endian host, a buffer tagged big (`>`) exactly
on a big-endian host — and host order is read off the byte layout of the constant
0x01020304 in memory (lowest-addressed byte 1 exactly on a big-endian host). -/
theorem claim_C5 (host : Endian) (rest : List Char) :
    (isNative host ('<' :: rest) = true ↔ host = Endian.little) ∧
    (isNative host ('>' :: rest) = true ↔ host = Endian.big) ∧
    ((layoutBytes host 4 0x01020304).headD 0 = 1 ↔ host = Endian.big) := by
  have hl : (layoutBytes Endian.little 4 0x01020304).headD 0 = 4 := by decide
  have hb : (layoutBytes Endian.big 4 0x01020304).headD 0 = 1 := by decide
  cases host
  · exact ⟨by simp only [isNative, List.headD_cons]; rw [hl]; decide,
      by simp only [isNative, List.headD_cons]; rw [hl]; decide,
      by rw [hl]; decide⟩
  · exact ⟨by simp only [isNative, List.headD_cons]; rw [hb]; decide,
      by simp only [isNative, List.headD_cons]; rw [hb]; decide,
      by rw [hb]; decide⟩

/-- C6: whenever the declared tag matches host order (isNative true), every makeNative
overload returns the buffer untouched, and repeated calls are likewise no-ops. -/
theorem claim_C6 (host : Endian) (b : BufferInfo) (h : isNative host b.format = true) :
    makeNative_uint8 host b = b ∧ makeNative_int8 host b = b ∧
    makeNative_uint16 host b = b ∧ makeNative_int16 host b = b ∧
    makeNative_uint32 host b = b ∧ makeNative_int32 host b = b ∧
    makeNative_uint64 host b = b ∧ makeNative_int64 host b = b ∧
    makeNative_uint16 host (makeNative_uint16 host b) = b ∧
    makeNative_uint64 host (makeNative_uint64 host b) = b := by
  have h16 : makeNative_uint16 host b = b := by rw [makeNative_uint16, if_pos h]
  have h16s : makeNative_int16 host b = b := by rw [makeNative_int16, if_pos h]
  have h32 : makeNative_uint32 host b = b := by rw [makeNative_uint32, if_pos h]
  have h32s : makeNative_int32 host b = b := by rw [makeNative_int32, if_pos h]
  have h64 : makeNative_uint64 host b = b := by rw [makeNative_uint64, if_pos h]
  have h64s : makeNative_int64 host b = b := by rw [makeNative_int64, if_pos h]
  exact ⟨rfl, rfl, h16, h16s, h32, h32s, h64, h64s, by rw [h16, h16],
    by rw [h64, h64]⟩

/-- Witness for C6: a little-tagged buffer on a little-endian host. -/
theorem claim_C6_witness :
    isNative Endian.little bufNative.format = true ∧
    (makeNative_uint8 Endian.little bufNative = bufNative ∧
      makeNative_int8 Endian.little bufNative = bufNative ∧
      makeNative_uint16 Endian.little bufNative = bufNative ∧
      makeNative_int16 Endian.little bufNative = bufNative ∧
      makeNative_uint32 Endian.little bufNative = bufNative ∧
      makeNative_int32 Endian.little bufNative = bufNative ∧
      makeNative_uint64 Endian.little bufNative = bufNative ∧
      makeNative_int64 Endian.little bufNative = bufNative ∧
      makeNative_uint16 Endian.little (makeNative_uint16 Endian.little bufNative) =
        bufNative ∧
      makeNative_uint64 Endian.little (makeNative_uint64 Endian.little bufNative) =
        bufNative) :=
  ⟨by decide, claim_C6 Endian.little bufNative (by decide)⟩

/-- C7: the 1-byte-element overloads (uint8 and int8) are the identity on every buffer,
whatever the declared byte-order tag and the host order. -/
theorem claim_C7 (host : Endian) (b : BufferInfo) :
    makeNative_uint8 host b = b ∧ makeNative_int8 host b = b :=
  ⟨rfl, rfl⟩

/-- C8: on a big-endian host, makeNative on three uint16 elements tagged little with
stored bytes [01, 02, 03, 04, 05, 06] leaves stored bytes [02, 01, 04, 03, 06, 05],
i.e. the native big-endian values 0x0201, 0x0403, 0x0605. -/
theorem claim_C8 :
    ((makeNative_uint16 Endian.big bufC8).mem 0 = 0x02 ∧
      (makeNative_uint16 Endian.big bufC8).mem 1 = 0x01 ∧
      (makeNative_uint16 Endian.big bufC8).mem 2 = 0x04 ∧
      (makeNative_uint16 Endian.big bufC8).mem 3 = 0x03 ∧
      (makeNative_uint16 Endian.big bufC8).mem 4 = 0x06 ∧
      (makeNative_uint16 Endian.big bufC8).mem 5 = 0x05) ∧
    readElem Endian.big 2 (makeNative_uint16 Endian.big bufC8).mem 0 = 0x0201 ∧
    readElem Endian.big 2 (makeNative_uint16 Endian.big bufC8).mem 2 = 0x0403 ∧
    readElem Endian.big 2 (makeNative_uint16 Endian.big bufC8).mem 4 = 0x0605 := by
  decide

/-- C9: there is a buffer (three uint16 elements, already normalized once, tag still
claiming non-native) on which a second makeNative call mutates the bytes again: after
the first call byte 0 is 2, after the second call it is back to 1. -/
theorem claim_C9 :
    (makeNative_uint16 Endian.little bufC9).mem 0 = 2 ∧
    (makeNative_uint16 Endian.little
      (makeNative_uint16 Endian.little bufC9)).mem 0 = 1 := by
  decide

/-- C1 (failing input): on a little-endian host, the non-native contiguous 4-element
uint16 buffer bufC1 (stride 2, bytes [1..8]) has `N = shape[0] / itemsize = 2`, so the
loop touches element indices 0, 2, 4, 6 instead of 0, 1, 2, 3: element 0 is swapped,
but element 1 (bytes at offsets 2 and 3) is left unswapped, contradicting the claim
that every element position is swapped exactly once. -/
theorem claim_C1 :
    isNative Endian.little bufC1.format = false ∧
    bufC1.shape0 / bufC1.itemsize = 2 ∧
    (makeNative_uint16 Endian.little bufC1).mem 0 = 2 ∧
    (makeNative_uint16 Endian.little bufC1).mem 1 = 1 ∧
    (makeNative_uint16 Endian.little bufC1).mem 2 = 3 ∧
    (makeNative_uint16 Endian.little bufC1).mem 3 = 4 := by
  decide

/-- C10 (failing input): on the same shape of buffer the loop also writes outside the
data region: the region is bytes [0, 8), yet the byte at offset 8 changes from 9 to 10
(loop index i = 2 writes element index 4, byte offset 8).  The descriptor fields
(format, shape, itemsize, size) are indeed left unchanged. -/
theorem claim_C10 :
    bufC10.size * bufC10.itemsize = 8 ∧
    bufC10.mem 8 = 9 ∧
    (makeNative_uint16 Endian.little bufC10).mem 8 = 10 ∧
    (makeNative_uint16 Endian.little bufC10).format = bufC10.format ∧
    (makeNative_uint16 Endian.little bufC10).shape0 = bufC10.shape0 ∧
    (makeNative_uint16 Endian.little bufC10).itemsize = bufC10.itemsize ∧
    (makeNative_uint16 Endian.little bufC10).size = bufC10.size := by
  decide

end AwkUtil
